import Mathlib

/-!
Shallow embedding of the stellaros memory-management core.

The definitions below are translated from the Rust sources:
  * `src/src/memory.rs` — address ranges, page iteration, the
    `PageAllocator` interface and the `AttributeFields` data model;
  * `src/src/arch/aarch64/mmu.rs` — the translation-table engine
    (descriptor encodings, `EntryType::from_entry`, `map_page`,
    `map_range_with`, `map_range`);
  * `src/bigbang/src/main.rs` — the bump allocator
    (`StackPageAllocator` / `StackPageAllocatorMetadata`) and the ELF
    segment-flag translation `flags_to_attributes`.

Machine integers are modelled as `Nat` with explicit truncation
(`% 2 ^ w`) where the hardware bit fields truncate.  Memory holding
translation tables is modelled as a total function from descriptor
addresses (8-byte aligned offsets) to 64-bit descriptor values.
-/

/-- Modelled from the spec: the translation granule `crate::bsp::config::MmuGranule`
(the `bsp::config` module is not among the provided sources).  The spec fixes the
granule as a board-level constant of 4/16/64 KiB; the architecture code pins it to
4 KiB: `TCR_EL1` is programmed with `TG0::KiB_4`/`TG1::KiB_4`, and the initial walk
mask `0xFF8000000000` together with the `mask / (ENTRY_PER_TABLE - 1)` alignment
assertion is consistent only with 512-entry (4 KiB) tables. -/
def MmuGranule.SIZE : Nat := 4096

/-- The granule shift, `log2` of the size (`TranslationGranule::SHIFT`). -/
def MmuGranule.SHIFT : Nat := 12

/-- Number of descriptors per table: `MmuGranule::SIZE >> 3`. -/
def ENTRY_PER_TABLE : Nat := MmuGranule.SIZE >>> 3

/-- Modelled from the spec: `crate::common::is_aligned` (`common.rs` is not among the
provided sources).  The spec describes it as the alignment test of an address against
a power-of-two alignment. -/
def is_aligned (value alignment : Nat) : Bool := value % alignment = 0

/-- Rust `usize::is_power_of_two` (exactly one bit set). -/
def is_power_of_two (n : Nat) : Bool := n ≠ 0 && n &&& (n - 1) = 0

/-- Helper for `ctz`: structural recursion on a fuel bound of 64 bits. -/
def ctzAux : Nat → Nat → Nat
  | 0, _ => 0
  | fuel + 1, n => if n % 2 = 0 then ctzAux fuel (n / 2) + 1 else 0

/-- Rust `u64::trailing_zeros` (for arguments below `2 ^ 64`). -/
def ctz (n : Nat) : Nat := ctzAux 64 n

/-- Rust `(lo..hi).step_by(step)`: the ascending sequence starting at `lo`,
advancing by `step`, while below `hi`. -/
def stepBy (lo hi step : Nat) : List Nat :=
  if _h : lo < hi ∧ 0 < step then lo :: stepBy (lo + step) hi step else []
termination_by hi - lo
decreasing_by omega

/-- `AddressRange<ATYPE>`: a base address plus a byte size (`src/src/memory.rs`).
The phantom address-space tag has no runtime content and is dropped. -/
structure AddressRange where
  addr : Nat
  size : Nat
deriving DecidableEq, Repr

/-- `AddressRange::end`: `addr + size`. -/
def AddressRange.end_ (r : AddressRange) : Nat := r.addr + r.size

/-- `AddressRange::pages`: `(base..base + size).step_by(MmuGranule::SIZE)`. -/
def AddressRange.pages (r : AddressRange) : List Nat :=
  stepBy r.addr (r.addr + r.size) MmuGranule.SIZE

/-- `MemAttributes` (`src/src/memory.rs`). -/
inductive MemAttributes where
  | CacheableDRAM
  | Device
deriving DecidableEq, Repr

/-- `AccessPermissions` (`src/src/memory.rs`). -/
inductive AccessPermissions where
  | ReadOnly
  | ReadWrite
deriving DecidableEq, Repr

/-- `AttributeFields` (`src/src/memory.rs`). -/
structure AttributeFields where
  mem_attributes : MemAttributes
  acc_perms : AccessPermissions
  execute_never : Bool
deriving DecidableEq, Repr

/-- `StackPageAllocatorMetadata` (`src/bigbang/src/main.rs`): the bump allocator
state.  The Rust field `end` is spelled `end_` because `end` is a Lean keyword. -/
structure StackPageAllocatorMetadata where
  start : Nat
  end_ : Nat
  top : Nat
deriving DecidableEq, Repr

/-- Outcome of `StackPageAllocator::alloc_pages`.  `ok base m` returns the base
physical address of the page handle together with the updated metadata; `err m msg`
is the recoverable `Err` case (metadata `m` is what the global state still holds);
`panicked` models an assertion failure (`assert_ne!` in `alloc_pages`, or the
alignment assertion in `Page::from_raw`). -/
inductive AllocResult where
  | ok : Nat → StackPageAllocatorMetadata → AllocResult
  | err : StackPageAllocatorMetadata → String → AllocResult
  | panicked : String → AllocResult
deriving DecidableEq, Repr

/-- `StackPageAllocator::alloc_pages` (`src/bigbang/src/main.rs` lines 113-133).
Checks `METADATA.start != 0`, then the exhaustion bound `top + size > end`, then
builds the page handle via `Page::from_raw` (whose alignment assertion on the base
is modelled by the third test) and advances `top`. -/
def alloc_pages (m : StackPageAllocatorMetadata) (num : Nat) : AllocResult :=
  let size := num * MmuGranule.SIZE
  if m.start = 0 then .panicked "assertion failed: METADATA.start != 0"
  else if m.top + size > m.end_ then .err m "Page stack overflow"
  else if ¬ (m.top % MmuGranule.SIZE = 0) then .panicked "Page not aligned"
  else .ok m.top { m with top := m.top + size }

/-- `StackPageAllocatorMetadata::init` (`src/bigbang/src/main.rs` lines 148-152). -/
def StackPageAllocatorMetadata.init (start : Nat) (num : Nat) : StackPageAllocatorMetadata :=
  { start := start, top := start, end_ := start + num * MmuGranule.SIZE }

/-- ELF segment flags as consumed by the loader.  The external `elfloader::Flags`
type is used only through its `is_write`/`is_execute` accessors, so it is modelled
as that pair of booleans. -/
structure Flags where
  is_write : Bool
  is_execute : Bool
deriving DecidableEq, Repr

/-- `flags_to_attributes` (`src/bigbang/src/main.rs` lines 61-74).  Note that both
branches of the writability test yield `ReadWrite` (the source carries a
`TODO: change back to read`). -/
def flags_to_attributes (flags : Flags) : AttributeFields :=
  let ap := if flags.is_write then AccessPermissions.ReadWrite else AccessPermissions.ReadWrite
  let nx := !flags.is_execute
  { mem_attributes := .CacheableDRAM, acc_perms := ap, execute_never := nx }

/-- `MmuLevel` (`src/src/arch/aarch64/mmu.rs`). -/
inductive MmuLevel where
  | Level0
  | Level1
  | Level2
  | Level3
deriving DecidableEq, Repr

/-- `MmuLevel::next_lvl`. -/
def MmuLevel.next_lvl : MmuLevel → Option MmuLevel
  | .Level0 => some .Level1
  | .Level1 => some .Level2
  | .Level2 => some .Level3
  | .Level3 => none

/-- Depth of a level below level 0 (observation helper for stating bounds). -/
def MmuLevel.depth : MmuLevel → Nat
  | .Level0 => 0
  | .Level1 => 1
  | .Level2 => 2
  | .Level3 => 3

/-- `EntryType` (`src/src/arch/aarch64/mmu.rs`); each non-invalid classification
carries the raw 64-bit descriptor value it classified. -/
inductive EntryType where
  | Invalid
  | Block (value : Nat)
  | Table (value : Nat)
  | Page (value : Nat)
deriving DecidableEq, Repr

/-- `EntryType::from_entry` (`src/src/arch/aarch64/mmu.rs` lines 65-88).
`VALID` is bit 0, `TYPE` (Block = 0 / Table = 1) is bit 1; a table-typed valid
descriptor at level 3 is a page, a block-typed valid descriptor at level 0 is the
`None` (hard error) case. -/
def from_entry (value : Nat) (level : MmuLevel) : Option EntryType :=
  let vaild := value.testBit 0
  if !vaild then some .Invalid
  else
    let is_table := value.testBit 1
    if is_table then
      if level = .Level3 then some (.Page value) else some (.Table value)
    else
      if level = .Level0 then none else some (.Block value)

/-- Field encoding of `From<AttributeFields> for FieldValue<u64, STAGE1_PAGE_DESCRIPTOR>`
(`src/src/arch/aarch64/mmu.rs` lines 484-518).  `SH` occupies bits [9:8], `AttrIndx`
bits [4:2], `AP` bits [7:6], `PXN` bit 53 and `UXN` bit 54; combining field values is
a bitwise or of the individually masked fields. -/
def attribute_field_value (a : AttributeFields) : Nat :=
  let memBits :=
    match a.mem_attributes with
    | .CacheableDRAM => (3 <<< 8) ||| (1 <<< 2)
    | .Device => (2 <<< 8) ||| (0 <<< 2)
  let apBits :=
    match a.acc_perms with
    | .ReadOnly => 2 <<< 6
    | .ReadWrite => 0 <<< 6
  let pxnBits := if a.execute_never then 1 <<< 53 else 0 <<< 53
  let uxnBits := 1 <<< 54
  memBits ||| apBits ||| pxnBits ||| uxnBits

/-- The leaf page descriptor synthesized in `map_page` (`src/src/arch/aarch64/mmu.rs`
lines 293-302): `VALID::True + AF::True + attributes.into() + TYPE::Table +
OUTPUT_ADDR.val(paddr >> SHIFT)`; `OUTPUT_ADDR` holds 48 - SHIFT = 36 bits starting
at bit `SHIFT`, and `.val` masks its argument to the field width. -/
def page_descriptor_value (paddr : Nat) (a : AttributeFields) : Nat :=
  let shifted := paddr >>> MmuGranule.SHIFT
  (1 <<< 0) ||| (1 <<< 10) ||| attribute_field_value a ||| (1 <<< 1)
    ||| ((shifted % 2 ^ 36) <<< MmuGranule.SHIFT)

/-- `TableDescriptor::from_next_lvl_table_addr` (`src/src/arch/aarch64/mmu.rs`
lines 469-480): `VALID::True + TYPE::Table + NEXT_LEVEL_TABLE_ADDR.val(addr >> SHIFT)`. -/
def from_next_lvl_table_addr (next_lvl_table_addr : Nat) : Nat :=
  let shifted := next_lvl_table_addr >>> MmuGranule.SHIFT
  (1 <<< 0) ||| (1 <<< 1) ||| ((shifted % 2 ^ 36) <<< MmuGranule.SHIFT)

/-- Reading the `NEXT_LEVEL_TABLE_ADDR` field back and shifting by the granule
shift, as done in the `Table` arm of `map_page` (lines 284-285).  The same
offset/width pair is the `OUTPUT_ADDR` field of a page descriptor. -/
def next_level_table_addr (value : Nat) : Nat :=
  ((value >>> MmuGranule.SHIFT) % 2 ^ 36) <<< MmuGranule.SHIFT

/-- Register-style field read: `(value >> off) & (2^width - 1)` (observation helper
used to state descriptor properties). -/
def getField (value off width : Nat) : Nat := (value >>> off) % 2 ^ width

/-- `table.entry_of_addr(vaddr, mask)` index computation
(`src/src/arch/aarch64/mmu.rs` line 207): `(vaddr & mask) >> mask.trailing_zeros()`. -/
def entry_index (vaddr mask : Nat) : Nat := (vaddr &&& mask) >>> ctz mask

/-- The machine state a mapping operation manipulates: the bump-allocator metadata
(the `METADATA` static), the memory holding translation tables (a total function
from 8-byte-aligned descriptor addresses to descriptor values; all call sites use
`IdentMapper`, so table memory is addressed by physical address), and the
translation-table base register of the region being operated on (0 = null =
uninitialized, as in `root_mut`). -/
structure MachineState where
  metadata : StackPageAllocatorMetadata
  mem : Nat → Nat
  ttbr : Nat

/-- Write one 64-bit descriptor. -/
def writeMem (mem : Nat → Nat) (addr value : Nat) : Nat → Nat :=
  fun a => if a = addr then value else mem a

/-- `page.as_bytes_mut().fill(0)`: zero one granule worth of descriptors. -/
def zeroFill (mem : Nat → Nat) (base : Nat) : Nat → Nat :=
  fun a => if base ≤ a ∧ a < base + MmuGranule.SIZE then 0 else mem a

/-- Outcome of a mapping operation.  Rust mutates state in place and returns
`Result<(), &str>`; both the `ok` and `err` constructors therefore carry the state
as it stands on return.  `panicked` models an assertion/`expect`/`unwrap` failure. -/
inductive MapResult where
  | ok : MachineState → MapResult
  | err : MachineState → String → MapResult
  | panicked : String → MapResult

/-- State carried by an `ok`/`err` outcome (junk default for a panic). -/
def MapResult.get_state : MapResult → MachineState
  | .ok st => st
  | .err st _ => st
  | .panicked _ => { metadata := ⟨0, 0, 0⟩, mem := fun _ => 0, ttbr := 0 }

/-- Whether the outcome is the recoverable `Err` case. -/
def MapResult.is_err : MapResult → Bool
  | .err _ _ => true
  | _ => false

/-- Whether the outcome is `Ok`. -/
def MapResult.is_ok : MapResult → Bool
  | .ok _ => true
  | _ => false

/-- `root_or_init` (`src/src/arch/aarch64/mmu.rs` lines 341-351): if the base
register is non-null the existing root is used; otherwise one page is allocated
(`expect` on failure — modelled as `Except.error`, which stands for a panic),
zero-filled, and installed as the root. -/
def root_or_init (st : MachineState) : Except String (MachineState × Nat) :=
  if st.ttbr ≠ 0 then .ok (st, st.ttbr)
  else
    match alloc_pages st.metadata 1 with
    | .ok base m2 =>
      .ok ({ metadata := m2, mem := zeroFill st.mem base, ttbr := base }, base)
    | .err _ _ => .error "get level0 table space"
    | .panicked msg => .error msg

/-- The initial walk mask of `map_page` (line 274). -/
def INIT_MASK : Nat := 0xFF8000000000

/-- The `while mask > MmuGranule::SIZE` loop of `map_page`
(`src/src/arch/aarch64/mmu.rs` lines 277-319), with an explicit fuel argument for
the recursion (`none` = fuel exhausted; the loop is proved below to finish within
8 iterations).  Each iteration: locate the descriptor via `entry_of_addr` (whose
mask-alignment assertion is the `is_power_of_two` test), classify it, and either
fail, follow a table (advancing the level and narrowing the mask by
`SHIFT - 3 = 9` bits), install a fresh table and retry at the same mask
(the `continue`), or install the leaf page descriptor at level 3. -/
def map_page_loop (paddr vaddr : Nat) (attributes : AttributeFields) :
    Nat → MachineState → Nat → MmuLevel → Nat → Option MapResult
  | fuel, st, sect, level, mask =>
    if mask ≤ MmuGranule.SIZE then some (.ok st)
    else
      match fuel with
      | 0 => none
      | fuel + 1 =>
        if ¬ is_power_of_two (mask / (ENTRY_PER_TABLE - 1)) then
          some (.panicked "mask is not shifted by the entry count")
        else
          let idx := entry_index vaddr mask
          let entryAddr := sect + 8 * idx
          match from_entry (st.mem entryAddr) level with
          | some (.Block _) => some (.err st "Address already mapped in a block")
          | some (.Page _) => some (.err st "Address already mapped in a page")
          | none => some (.err st "Block descriptor cannot be in level0")
          | some (.Table value) =>
            match level.next_lvl with
            | some nextLevel =>
              map_page_loop paddr vaddr attributes fuel st (next_level_table_addr value)
                nextLevel (mask >>> (MmuGranule.SHIFT - 3))
            | none => some (.panicked "called unwrap on a None value")
          | some .Invalid =>
            if level = .Level3 then
              let st2 :=
                { st with mem := writeMem st.mem entryAddr (page_descriptor_value paddr attributes) }
              map_page_loop paddr vaddr attributes fuel st2 sect level
                (mask >>> (MmuGranule.SHIFT - 3))
            else
              match alloc_pages st.metadata 1 with
              | .err m msg => some (.err { st with metadata := m } msg)
              | .panicked msg => some (.panicked msg)
              | .ok base m2 =>
                let mem2 := writeMem (zeroFill st.mem base) entryAddr (from_next_lvl_table_addr base)
                map_page_loop paddr vaddr attributes fuel
                  { metadata := m2, mem := mem2, ttbr := st.ttbr } sect level mask

/-- `MmuReigon::map_page` (`src/src/arch/aarch64/mmu.rs` lines 267-321):
`root_or_init`, then the walk loop starting at level 0 with the initial mask. -/
def map_page (st : MachineState) (paddr vaddr : Nat) (attributes : AttributeFields) : MapResult :=
  match root_or_init st with
  | .error msg => .panicked msg
  | .ok (st1, root) =>
    match map_page_loop paddr vaddr attributes 8 st1 root .Level0 INIT_MASK with
    | some r => r
    | none => .panicked "translation walk did not terminate"

/-- The `for (paddr, vaddr) in page_map { self.map_page(..)? }` loop of
`map_range_with` (lines 249-253): sequential mapping, stopping at the first
non-`Ok` outcome. -/
def map_pages_list (st : MachineState) (attr : AttributeFields) :
    List (Nat × Nat) → MapResult
  | [] => .ok st
  | (paddr, vaddr) :: rest =>
    match map_page st paddr vaddr attr with
    | .ok st2 => map_pages_list st2 attr rest
    | r => r

/-- `MmuReigon::map_range_with` (`src/src/arch/aarch64/mmu.rs` lines 230-255):
asserts equal sizes and granule-aligned bases (assertion failures are `panicked`),
then maps the zipped page sequences of both ranges. -/
def map_range_with (st : MachineState) (prange vrange : AddressRange)
    (attr : AttributeFields) : MapResult :=
  if prange.size ≠ vrange.size then
    .panicked "assertion failed: prange.size() == vrange.size()"
  else if ¬ is_aligned prange.addr MmuGranule.SIZE then
    .panicked "prange not aligned with granule size"
  else if ¬ is_aligned vrange.addr MmuGranule.SIZE then
    .panicked "vrange not aligned with granule size"
  else map_pages_list st attr (prange.pages.zip vrange.pages)

/-- `AddrMapper::map_to_vrange`: translate the base, keep the size. -/
def map_to_vrange (map_to_vaddr : Nat → Nat) (prange : AddressRange) : AddressRange :=
  { addr := map_to_vaddr prange.addr, size := prange.size }

/-- `IdentMapper::map_to_vaddr` (`src/src/memory.rs`). -/
def ident_map_to_vaddr (paddr : Nat) : Nat := paddr

/-- `MmuReigon::map_range` (lines 257-265): identity/offset translation of the
physical range into the virtual range, then `map_range_with`. -/
def map_range (map_to_vaddr : Nat → Nat) (st : MachineState) (range : AddressRange)
    (attr : AttributeFields) : MapResult :=
  map_range_with st range (map_to_vrange map_to_vaddr range) attr

/-- Specification-side observation function: a software walk of the translation
tables, classifying descriptors exactly as `EntryType::from_entry` does and
following `NEXT_LEVEL_TABLE_ADDR` exactly as the `Table` arm of `map_page` does.
Returns the level-3 leaf page descriptor reached for `vaddr`, if any. -/
def walk_level (mem : Nat → Nat) (vaddr : Nat) : Nat → Nat → MmuLevel → Nat → Option Nat
  | 0, _, _, _ => none
  | fuel + 1, sect, level, mask =>
    let idx := entry_index vaddr mask
    match from_entry (mem (sect + 8 * idx)) level with
    | some (.Page value) => some value
    | some (.Table value) =>
      match level.next_lvl with
      | some nextLevel =>
        walk_level mem vaddr fuel (next_level_table_addr value) nextLevel
          (mask >>> (MmuGranule.SHIFT - 3))
      | none => none
    | _ => none

/-- Walk from the root, as the hardware would for a 4-level 4 KiB-granule regime. -/
def walk (st : MachineState) (vaddr : Nat) : Option Nat :=
  if st.ttbr = 0 then none
  else walk_level st.mem vaddr 4 st.ttbr .Level0 INIT_MASK

/-- The output physical address encoded in a leaf descriptor: the `OUTPUT_ADDR`
field shifted back up by the granule shift. -/
def output_addr (value : Nat) : Nat :=
  getField value MmuGranule.SHIFT 36 <<< MmuGranule.SHIFT

/-- Hardware encoding of `AccessPermissions` (`AP::RO_EL1 = 0b10`, `AP::RW_EL1 = 0b00`). -/
def ap_bits : AccessPermissions → Nat
  | .ReadOnly => 2
  | .ReadWrite => 0

/-- Hardware `AttrIndx` for a memory kind (`mair::NORMAL = 1`, `mair::DEVICE = 0`). -/
def attr_index : MemAttributes → Nat
  | .CacheableDRAM => 1
  | .Device => 0

/-- Hardware shareability encoding (`SH::InnerShareable = 0b11`, `SH::OuterShareable = 0b10`). -/
def sh_bits : MemAttributes → Nat
  | .CacheableDRAM => 3
  | .Device => 2

/-- Bit value of a boolean flag. -/
def bit_of (b : Bool) : Nat := if b then 1 else 0

/-- Well-formedness of the translation-table tree rooted at `sect` for `level`,
relative to the bump-allocator top: the table is granule-aligned, non-null and
lies entirely below `top`, and every `Table` entry points strictly above its own
table to a recursively well-formed child.  This is the invariant the bump
allocator establishes (children are always allocated after their parent), and it
guarantees that distinct tables on a walk path never overlap and that freshly
allocated tables are disjoint from every live table. -/
def table_wf (mem : Nat → Nat) (top : Nat) : Nat → MmuLevel → Nat → Bool
  | 0, _, _ => true
  | fuel + 1, level, sect =>
    decide (sect % MmuGranule.SIZE = 0) && decide (0 < sect) &&
    decide (sect + MmuGranule.SIZE ≤ top) &&
    (List.range ENTRY_PER_TABLE).all fun i =>
      match from_entry (mem (sect + 8 * i)) level with
      | some (.Table value) =>
        decide (sect < next_level_table_addr value) &&
        (match level.next_lvl with
         | some nextLevel => table_wf mem top fuel nextLevel (next_level_table_addr value)
         | none => true)
      | _ => true

/-- Well-formedness of a machine state: the allocator is initialized
(`start ≠ 0`, as asserted by `alloc_pages`), its top is granule-aligned and at or
above `start`, the pool lies within the 48-bit physical address space, and if a
root has been installed its tree is well-formed.  This invariant holds for the
states the boot flow constructs (a freshly initialized allocator with a null root)
and is preserved by the mapping operations. -/
def state_wf (st : MachineState) : Bool :=
  decide (st.metadata.start ≠ 0) &&
  decide (st.metadata.start ≤ st.metadata.top) &&
  decide (st.metadata.top % MmuGranule.SIZE = 0) &&
  decide (st.metadata.end_ ≤ 2 ^ 48) &&
  (decide (st.ttbr = 0) || table_wf st.mem st.metadata.top 4 .Level0 st.ttbr)

/-- The walk mask at a given level: the initial mask narrowed by 9 bits per level. -/
def level_mask (level : MmuLevel) : Nat := INIT_MASK >>> (9 * level.depth)


theorem stepBy_eq_range_map (g : Nat) (hg : 0 < g) :
    ∀ (k b : Nat), stepBy b (b + k * g) g = (List.range k).map (fun i => b + i * g) := by
  intro k
  induction k with
  | zero => intro b; rw [stepBy]; simp
  | succ k ih =>
    intro b
    rw [stepBy]
    have hcond : b < b + (k + 1) * g ∧ 0 < g :=
      ⟨Nat.lt_add_of_pos_right (Nat.mul_pos k.succ_pos hg), hg⟩
    rw [dif_pos hcond]
    have hb : b + (k + 1) * g = (b + g) + k * g := by ring
    rw [hb, ih (b + g), List.range_succ_eq_map]
    simp only [List.map_cons, List.map_map, Function.comp_def, List.cons.injEq]
    constructor
    · omega
    · congr 1
      funext i
      simp [Nat.succ_eq_add_one]
      ring

/-- C6: over a range of `k` granules starting at a granule-aligned base,
`AddressRange::pages()` yields exactly `k` addresses, the i-th being
`base + i * granule_size` — so the first is the base and each subsequent address
is exactly one granule above the previous. -/
theorem pages_of_k_granules (base k : Nat) (_halign : base % MmuGranule.SIZE = 0) :
    (AddressRange.mk base (k * MmuGranule.SIZE)).pages
        = (List.range k).map (fun i => base + i * MmuGranule.SIZE)
      ∧ (AddressRange.mk base (k * MmuGranule.SIZE)).pages.length = k := by
  have h := stepBy_eq_range_map MmuGranule.SIZE (by decide) k base
  refine ⟨?_, ?_⟩
  · simpa [AddressRange.pages] using h
  · simp [AddressRange.pages, h]

theorem pages_of_k_granules_witness :
    (0x80000000 % MmuGranule.SIZE = 0)
      ∧ ((AddressRange.mk 0x80000000 (3 * MmuGranule.SIZE)).pages
            = (List.range 3).map (fun i => 0x80000000 + i * MmuGranule.SIZE)
          ∧ (AddressRange.mk 0x80000000 (3 * MmuGranule.SIZE)).pages.length = 3) :=
  ⟨by decide, pages_of_k_granules 0x80000000 3 (by decide)⟩

/-- C9: for every ELF segment flags value, the loader attribute translation yields
read-write access permissions regardless of the writability flag, execute-never
exactly when the segment is not executable, and cacheable-DRAM memory attributes. -/
theorem flags_to_attributes_spec (f : Flags) :
    flags_to_attributes f
      = { mem_attributes := .CacheableDRAM, acc_perms := .ReadWrite,
          execute_never := !f.is_execute } := by
  cases f with
  | mk w x => cases w <;> rfl

/-- C3: for an initialized bump allocator (`start ≠ 0`, as asserted; `init S C`
sets `start = top = S` and `end = S + C * granule_size`) whose top is
granule-aligned, `alloc_pages num` succeeds exactly when
`top + num * granule_size ≤ end`, returning a page handle based at the current
top and advancing top by exactly `num * granule_size` while leaving `start` and
`end` unchanged; otherwise it fails with the exhaustion error and the metadata is
returned unchanged. -/
theorem alloc_pages_bump_spec (m : StackPageAllocatorMetadata) (num : Nat)
    (hstart : m.start ≠ 0) (htop : m.top % MmuGranule.SIZE = 0) :
    (∀ S C, StackPageAllocatorMetadata.init S C
        = ⟨S, S + C * MmuGranule.SIZE, S⟩)
    ∧ (m.top + num * MmuGranule.SIZE ≤ m.end_ →
        alloc_pages m num = .ok m.top ⟨m.start, m.end_, m.top + num * MmuGranule.SIZE⟩)
    ∧ (m.end_ < m.top + num * MmuGranule.SIZE →
        alloc_pages m num = .err m "Page stack overflow") := by
  refine ⟨fun S C => rfl, ?_, ?_⟩
  · intro hle
    simp only [alloc_pages]
    rw [if_neg hstart, if_neg (by omega), if_neg (by simpa using htop)]
  · intro hgt
    simp only [alloc_pages]
    rw [if_neg hstart, if_pos (by omega)]

theorem alloc_pages_bump_spec_witness :
    ((0x40000000 : Nat) ≠ 0 ∧ (0x40000000 : Nat) % MmuGranule.SIZE = 0)
    ∧ ((∀ S C, StackPageAllocatorMetadata.init S C = ⟨S, S + C * MmuGranule.SIZE, S⟩)
      ∧ ((0x40000000 : Nat) + 2 * MmuGranule.SIZE ≤ 0x40004000 →
          alloc_pages ⟨0x40000000, 0x40004000, 0x40000000⟩ 2
            = .ok 0x40000000 ⟨0x40000000, 0x40004000, 0x40000000 + 2 * MmuGranule.SIZE⟩)
      ∧ ((0x40004000 : Nat) < 0x40000000 + 2 * MmuGranule.SIZE →
          alloc_pages ⟨0x40000000, 0x40004000, 0x40000000⟩ 2
            = .err ⟨0x40000000, 0x40004000, 0x40000000⟩ "Page stack overflow")) :=
  ⟨⟨by decide, by decide⟩,
    alloc_pages_bump_spec ⟨0x40000000, 0x40004000, 0x40000000⟩ 2 (by decide) (by decide)⟩

/-- C4 counterexample: at a concrete pair of ranges whose sizes differ (one page
versus two pages), `map_range_with` does not return a recoverable error result —
it aborts via the size assertion (a panic), refuting the claim as stated. -/
theorem map_range_with_mismatch_counterexample :
    (map_range_with ⟨⟨4096, 8192, 4096⟩, fun _ => 0, 0⟩ ⟨0, 4096⟩ ⟨0, 8192⟩
        ⟨.CacheableDRAM, .ReadWrite, false⟩).is_err = false
      ∧ map_range_with ⟨⟨4096, 8192, 4096⟩, fun _ => 0, 0⟩ ⟨0, 4096⟩ ⟨0, 8192⟩
          ⟨.CacheableDRAM, .ReadWrite, false⟩
        = .panicked "assertion failed: prange.size() == vrange.size()" :=
  ⟨rfl, rfl⟩

/-- C4 (amended): for every pair of ranges with differing sizes, `map_range_with`
aborts via the `assert_eq!` size assertion (a panic, i.e. a programming-contract
violation rather than a recoverable `Result`), before installing any mapping. -/
theorem map_range_with_size_mismatch (st : MachineState) (prange vrange : AddressRange)
    (a : AttributeFields) (h : prange.size ≠ vrange.size) :
    map_range_with st prange vrange a
      = .panicked "assertion failed: prange.size() == vrange.size()" := by
  simp [map_range_with, h]

theorem map_range_with_size_mismatch_witness :
    ((4096 : Nat) ≠ 8192)
      ∧ map_range_with ⟨⟨4096, 8192, 4096⟩, fun _ => 0, 0⟩ ⟨0, 4096⟩ ⟨0, 8192⟩
          ⟨.CacheableDRAM, .ReadWrite, false⟩
        = .panicked "assertion failed: prange.size() == vrange.size()" :=
  ⟨by decide, map_range_with_size_mismatch _ _ _ _ (by decide)⟩

/-- C5: for granule-aligned ranges of size zero, the page sequence is empty, so
`map_range_with` (and `map_range`, here with the identity mapper) performs zero
`map_page` iterations, returns `Ok`, and leaves the machine state — translation
tables and allocator metadata — unchanged. -/
theorem map_range_empty_noop (st : MachineState) (prange vrange range : AddressRange)
    (a : AttributeFields)
    (hp : prange.size = 0) (hv : vrange.size = 0) (hr : range.size = 0)
    (hpa : prange.addr % MmuGranule.SIZE = 0) (hva : vrange.addr % MmuGranule.SIZE = 0)
    (hra : range.addr % MmuGranule.SIZE = 0) :
    prange.pages = []
      ∧ map_range_with st prange vrange a = .ok st
      ∧ map_range ident_map_to_vaddr st range a = .ok st := by
  have hpages : ∀ b : Nat, stepBy b b MmuGranule.SIZE = [] := by
    intro b
    rw [stepBy]
    simp
  have h1 : prange.pages = [] := by
    simp [AddressRange.pages, hp, hpages]
  have h2 : range.pages = [] := by
    simp [AddressRange.pages, hr, hpages]
  refine ⟨h1, ?_, ?_⟩
  · simp [map_range_with, hp, hv, is_aligned, hpa, hva, h1, map_pages_list]
  · simp [map_range, map_range_with, map_to_vrange, ident_map_to_vaddr, hr, hra, is_aligned,
      h2, map_pages_list]

theorem map_range_empty_noop_witness :
    ((0 : Nat) = 0 ∧ (0 : Nat) = 0 ∧ (0 : Nat) = 0
      ∧ (4096 : Nat) % MmuGranule.SIZE = 0 ∧ (8192 : Nat) % MmuGranule.SIZE = 0
      ∧ (12288 : Nat) % MmuGranule.SIZE = 0)
    ∧ ((AddressRange.mk 4096 0).pages = []
      ∧ map_range_with ⟨⟨4096, 8192, 4096⟩, fun _ => 0, 0⟩ ⟨4096, 0⟩ ⟨8192, 0⟩
          ⟨.CacheableDRAM, .ReadWrite, false⟩ = .ok ⟨⟨4096, 8192, 4096⟩, fun _ => 0, 0⟩
      ∧ map_range ident_map_to_vaddr ⟨⟨4096, 8192, 4096⟩, fun _ => 0, 0⟩ ⟨12288, 0⟩
          ⟨.CacheableDRAM, .ReadWrite, false⟩ = .ok ⟨⟨4096, 8192, 4096⟩, fun _ => 0, 0⟩) :=
  ⟨⟨rfl, rfl, rfl, by decide, by decide, by decide⟩,
    map_range_empty_noop ⟨⟨4096, 8192, 4096⟩, fun _ => 0, 0⟩ ⟨4096, 0⟩ ⟨8192, 0⟩ ⟨12288, 0⟩
      ⟨.CacheableDRAM, .ReadWrite, false⟩ rfl rfl rfl (by decide) (by decide) (by decide)⟩

/-- C7: every valid descriptor whose TYPE field is Block (bit 0 set, bit 1 clear)
is rejected at level 0 — `from_entry` returns `None` — and `map_page`, finding such
a descriptor in the root table at the walk index of the target virtual address,
converts this into an error result (with the state unchanged) rather than treating
the descriptor as a leaf. -/
theorem level0_block_rejected (value : Nat) (st : MachineState) (paddr vaddr : Nat)
    (a : AttributeFields)
    (h0 : value.testBit 0 = true) (h1 : value.testBit 1 = false)
    (httbr : st.ttbr ≠ 0)
    (hmem : st.mem (st.ttbr + 8 * entry_index vaddr INIT_MASK) = value) :
    from_entry value .Level0 = none
      ∧ map_page st paddr vaddr a = .err st "Block descriptor cannot be in level0" := by
  have hfe : from_entry value .Level0 = none := by
    simp [from_entry, h0, h1]
  refine ⟨hfe, ?_⟩
  simp only [map_page, root_or_init, if_pos httbr]
  rw [map_page_loop]
  rw [if_neg (by decide), if_neg (by decide)]
  simp only [hmem, hfe]

theorem level0_block_rejected_witness :
    ((1 : Nat).testBit 0 = true ∧ (1 : Nat).testBit 1 = false
      ∧ (MachineState.mk ⟨0x40000000, 0x40010000, 0x40000000⟩ (fun _ => 1) 0x40000000).ttbr ≠ 0
      ∧ (MachineState.mk ⟨0x40000000, 0x40010000, 0x40000000⟩ (fun _ => 1) 0x40000000).mem
          (0x40000000 + 8 * entry_index 0x2000 INIT_MASK) = 1)
      ∧ (from_entry 1 .Level0 = none
        ∧ map_page (MachineState.mk ⟨0x40000000, 0x40010000, 0x40000000⟩ (fun _ => 1) 0x40000000)
            0x1000 0x2000 ⟨.CacheableDRAM, .ReadWrite, false⟩
          = .err (MachineState.mk ⟨0x40000000, 0x40010000, 0x40000000⟩ (fun _ => 1) 0x40000000)
              "Block descriptor cannot be in level0") :=
  ⟨⟨by decide, by decide, by decide, rfl⟩,
    level0_block_rejected 1 _ 0x1000 0x2000 ⟨.CacheableDRAM, .ReadWrite, false⟩
      (by decide) (by decide) (by decide) rfl⟩

theorem lor_eq_add_pow (i a b : Nat) (ha : a % 2 ^ i = 0) (hb : b < 2 ^ i) :
    a ||| b = a + b := by
  obtain ⟨c, hc⟩ := Nat.dvd_of_mod_eq_zero ha
  subst hc
  exact (Nat.mul_add_lt_is_or hb c).symm

theorem lor_chain_eq (C s : Nat) (hs : s < 2 ^ 36) (hC : (C / 4096) % 2 ^ 36 = 0) :
    C ||| (s <<< 12) = C + s * 4096 := by
  have h1 : s <<< 12 = s * 4096 := by
    rw [Nat.shiftLeft_eq]
  have hdiv : C / 4096 / 2 ^ 36 = C / 2 ^ 48 := by
    rw [Nat.div_div_eq_div_mul]
    norm_num
  have hdecomp : C = C % 4096 + 2 ^ 48 * (C / 2 ^ 48) := by
    have h2 := Nat.div_add_mod (C / 4096) (2 ^ 36)
    rw [hC, hdiv] at h2
    omega
  have hClo : C % 4096 < 2 ^ 12 := by omega
  have hsz : s * 4096 < 2 ^ 48 := by omega
  have hHi : (2 ^ 48 * (C / 2 ^ 48)) % 2 ^ 48 = 0 := Nat.mul_mod_right _ _
  calc C ||| (s <<< 12)
      = (2 ^ 48 * (C / 2 ^ 48) ||| C % 4096) ||| s * 4096 := by
        rw [h1, lor_eq_add_pow 12 (2 ^ 48 * (C / 2 ^ 48)) (C % 4096) (by omega) hClo]
        congr 1
        omega
    _ = (C % 4096 ||| 2 ^ 48 * (C / 2 ^ 48)) ||| s * 4096 := by rw [Nat.lor_comm (C % 4096)]
    _ = C % 4096 ||| (2 ^ 48 * (C / 2 ^ 48) ||| s * 4096) := Nat.lor_assoc _ _ _
    _ = C % 4096 ||| (2 ^ 48 * (C / 2 ^ 48) + s * 4096) := by
        rw [lor_eq_add_pow 48 _ _ hHi hsz]
    _ = (2 ^ 48 * (C / 2 ^ 48) + s * 4096) ||| C % 4096 := Nat.lor_comm _ _
    _ = 2 ^ 48 * (C / 2 ^ 48) + s * 4096 + C % 4096 := by
        refine lor_eq_add_pow 12 _ _ ?_ hClo
        omega
    _ = C + s * 4096 := by omega

theorem attribute_field_value_eq (a : AttributeFields) :
    attribute_field_value a
      = attr_index a.mem_attributes * 4 + ap_bits a.acc_perms * 64
        + sh_bits a.mem_attributes * 256 + bit_of a.execute_never * 2 ^ 53 + 2 ^ 54 := by
  obtain ⟨m, p, x⟩ := a
  cases m <;> cases p <;> cases x <;> decide

theorem page_descriptor_value_eq (paddr : Nat) (a : AttributeFields) :
    page_descriptor_value paddr a
      = 3 + attr_index a.mem_attributes * 4 + ap_bits a.acc_perms * 64
        + sh_bits a.mem_attributes * 256 + 1024
        + ((paddr >>> MmuGranule.SHIFT) % 2 ^ 36) * 4096
        + bit_of a.execute_never * 2 ^ 53 + 2 ^ 54 := by
  obtain ⟨m, p, x⟩ := a
  simp only [page_descriptor_value, MmuGranule.SHIFT]
  generalize hgen : (paddr >>> 12) % 2 ^ 36 = s
  have hs : s < 2 ^ 36 := by
    rw [← hgen]
    exact Nat.mod_lt _ (by norm_num)
  cases m <;> cases p <;> cases x <;>
    simp [attribute_field_value, attr_index, ap_bits, sh_bits, bit_of] <;>
    rw [lor_chain_eq _ _ hs (by decide)] <;>
    omega

theorem page_descriptor_bit0 (paddr : Nat) (a : AttributeFields) :
    (page_descriptor_value paddr a).testBit 0 = true := by
  rw [page_descriptor_value_eq, Nat.testBit_to_div_mod]
  simp only [pow_zero, Nat.div_one, decide_eq_true_eq]
  omega

theorem page_descriptor_bit1 (paddr : Nat) (a : AttributeFields) :
    (page_descriptor_value paddr a).testBit 1 = true := by
  rw [page_descriptor_value_eq, Nat.testBit_to_div_mod]
  simp only [decide_eq_true_eq]
  have h1 : attr_index a.mem_attributes * 4 % 4 = 0 := by omega
  norm_num
  omega

theorem from_entry_page_descriptor (paddr : Nat) (a : AttributeFields) (level : MmuLevel) :
    from_entry (page_descriptor_value paddr a) level
      = if level = .Level3 then some (.Page (page_descriptor_value paddr a))
        else some (.Table (page_descriptor_value paddr a)) := by
  unfold from_entry
  simp only [page_descriptor_bit0, page_descriptor_bit1, Bool.not_true, Bool.false_eq_true,
    if_false, if_true]

theorem from_next_lvl_table_addr_eq (b : Nat) :
    from_next_lvl_table_addr b = 3 + ((b >>> 12) % 2 ^ 36) * 4096 := by
  simp only [from_next_lvl_table_addr, MmuGranule.SHIFT]
  generalize hgen : (b >>> 12) % 2 ^ 36 = s
  have hs : s < 2 ^ 36 := by
    rw [← hgen]
    exact Nat.mod_lt _ (by norm_num)
  simp only [Nat.reduceShiftLeft, Nat.reduceOr]
  rw [lor_chain_eq _ _ hs (by decide)]

theorem from_entry_table_descriptor (b : Nat) (level : MmuLevel) :
    from_entry (from_next_lvl_table_addr b) level
      = if level = .Level3 then some (.Page (from_next_lvl_table_addr b))
        else some (.Table (from_next_lvl_table_addr b)) := by
  have h0 : (from_next_lvl_table_addr b).testBit 0 = true := by
    rw [from_next_lvl_table_addr_eq, Nat.testBit_to_div_mod]
    simp only [pow_zero, Nat.div_one, decide_eq_true_eq]
    omega
  have h1 : (from_next_lvl_table_addr b).testBit 1 = true := by
    rw [from_next_lvl_table_addr_eq, Nat.testBit_to_div_mod]
    simp only [decide_eq_true_eq]
    omega
  unfold from_entry
  simp only [h0, h1, Bool.not_true, Bool.false_eq_true, if_false, if_true]

theorem from_entry_zero (level : MmuLevel) : from_entry 0 level = some .Invalid := by
  simp [from_entry]

theorem next_level_table_addr_of_table_desc (b : Nat) (hb : b % 4096 = 0) (hb48 : b < 2 ^ 48) :
    next_level_table_addr (from_next_lvl_table_addr b) = b := by
  rw [from_next_lvl_table_addr_eq]
  simp only [next_level_table_addr, MmuGranule.SHIFT, Nat.shiftRight_eq_div_pow,
    Nat.shiftLeft_eq]
  have h36 : b / 4096 < 2 ^ 36 := by omega
  norm_num
  omega

theorem next_level_table_addr_aligned (value : Nat) :
    next_level_table_addr value % 4096 = 0 := by
  simp only [next_level_table_addr, MmuGranule.SHIFT, Nat.shiftLeft_eq]
  omega

theorem entry_index_le (vaddr mask : Nat) : entry_index vaddr mask ≤ mask >>> ctz mask := by
  simp only [entry_index, Nat.shiftRight_eq_div_pow]
  exact Nat.div_le_div_right Nat.and_le_right

/-- C10: every leaf page descriptor synthesized at mapping time has the
unprivileged execute-never (UXN, bit 54) bit set, for every requested
`AttributeFields` value — the attribute translation sets UXN unconditionally —
while the privileged execute-never bit (PXN, bit 53) equals the requested
`execute_never` flag (clear when `execute_never = false`). -/
theorem page_descriptor_uxn_always (paddr : Nat) (a : AttributeFields) :
    (attribute_field_value a).testBit 54 = true
      ∧ (page_descriptor_value paddr a).testBit 54 = true
      ∧ (page_descriptor_value paddr a).testBit 53 = a.execute_never := by
  have hs : (paddr >>> MmuGranule.SHIFT) % 2 ^ 36 < 2 ^ 36 := Nat.mod_lt _ (by norm_num)
  obtain ⟨m, p, x⟩ := a
  refine ⟨?_, ?_, ?_⟩ <;>
    rw [Nat.testBit_to_div_mod] <;>
    cases m <;> cases p <;> cases x <;>
    simp only [attribute_field_value_eq, page_descriptor_value_eq, attr_index, ap_bits, sh_bits,
      bit_of, decide_eq_true_eq, decide_eq_false_iff_not] <;>
    norm_num <;>
    omega

theorem page_descriptor_fields (paddr : Nat) (a : AttributeFields)
    (hp : paddr % MmuGranule.SIZE = 0) (hp48 : paddr < 2 ^ 48) :
    getField (page_descriptor_value paddr a) 0 1 = 1
      ∧ getField (page_descriptor_value paddr a) 10 1 = 1
      ∧ getField (page_descriptor_value paddr a) 12 36 = paddr >>> MmuGranule.SHIFT
      ∧ output_addr (page_descriptor_value paddr a) = paddr
      ∧ getField (page_descriptor_value paddr a) 6 2 = ap_bits a.acc_perms
      ∧ getField (page_descriptor_value paddr a) 2 3 = attr_index a.mem_attributes
      ∧ getField (page_descriptor_value paddr a) 8 2 = sh_bits a.mem_attributes
      ∧ getField (page_descriptor_value paddr a) 53 1 = bit_of a.execute_never := by
  simp only [MmuGranule.SIZE] at hp
  obtain ⟨m, p, x⟩ := a
  refine ⟨?_, ?_, ?_, ?_, ?_, ?_, ?_, ?_⟩ <;>
    cases m <;> cases p <;> cases x <;>
    simp only [page_descriptor_value_eq, attr_index, ap_bits, sh_bits, bit_of, getField,
      output_addr, Nat.shiftRight_eq_div_pow, Nat.shiftLeft_eq, MmuGranule.SHIFT] <;>
    norm_num <;>
    omega

theorem level_mask_gt (level : MmuLevel) : ¬ level_mask level ≤ MmuGranule.SIZE := by
  cases level <;> decide

theorem level_mask_pow (level : MmuLevel) :
    is_power_of_two (level_mask level / (ENTRY_PER_TABLE - 1)) = true := by
  cases level <;> decide

theorem level_mask_next (level nextLevel : MmuLevel) (h : level.next_lvl = some nextLevel) :
    level_mask level >>> (MmuGranule.SHIFT - 3) = level_mask nextLevel := by
  cases level <;> simp [MmuLevel.next_lvl] at h <;> subst h <;> decide

theorem depth_next (level nextLevel : MmuLevel) (h : level.next_lvl = some nextLevel) :
    nextLevel.depth = level.depth + 1 := by
  cases level <;> simp [MmuLevel.next_lvl] at h <;> subst h <;> decide

theorem level_mask_l3_exit : level_mask .Level3 >>> (MmuGranule.SHIFT - 3) ≤ MmuGranule.SIZE := by
  decide

theorem entry_index_lt_512 (vaddr : Nat) (level : MmuLevel) :
    entry_index vaddr (level_mask level) < 512 := by
  have h := entry_index_le vaddr (level_mask level)
  have h2 : level_mask level >>> ctz (level_mask level) = 511 := by
    cases level <;> decide
  omega

theorem table_wf_bounds (mem : Nat → Nat) (top fuel : Nat) (level : MmuLevel) (sect : Nat)
    (h : table_wf mem top (fuel + 1) level sect = true) :
    sect % MmuGranule.SIZE = 0 ∧ 0 < sect ∧ sect + MmuGranule.SIZE ≤ top := by
  rw [table_wf] at h
  simp only [Bool.and_eq_true, decide_eq_true_eq] at h
  exact ⟨h.1.1.1, h.1.1.2, h.1.2⟩

theorem table_wf_entry (mem : Nat → Nat) (top fuel : Nat) (level : MmuLevel) (sect value i : Nat)
    (h : table_wf mem top (fuel + 1) level sect = true) (hi : i < 512)
    (he : from_entry (mem (sect + 8 * i)) level = some (.Table value)) :
    sect < next_level_table_addr value
      ∧ ∀ nextLevel, level.next_lvl = some nextLevel →
          table_wf mem top fuel nextLevel (next_level_table_addr value) = true := by
  rw [table_wf] at h
  simp only [Bool.and_eq_true, List.all_eq_true, decide_eq_true_eq] at h
  have hmem : i ∈ List.range ENTRY_PER_TABLE := by
    rw [List.mem_range]
    show i < 512
    omega
  have h3 := h.2 i hmem
  rw [he] at h3
  simp only [Bool.and_eq_true, decide_eq_true_eq] at h3
  refine ⟨h3.1, ?_⟩
  intro nextLevel hnl
  have h4 := h3.2
  rw [hnl] at h4
  exact h4

theorem table_wf_zeroed (mem : Nat → Nat) (top fuel : Nat) (level : MmuLevel) (base : Nat)
    (hb : base % MmuGranule.SIZE = 0) (h0 : 0 < base) (hbound : base + MmuGranule.SIZE ≤ top)
    (hzero : ∀ i, i < 512 → mem (base + 8 * i) = 0) :
    table_wf mem top (fuel + 1) level base = true := by
  rw [table_wf]
  simp only [Bool.and_eq_true, List.all_eq_true, decide_eq_true_eq]
  refine ⟨⟨⟨hb, h0⟩, hbound⟩, ?_⟩
  intro i hmem
  rw [List.mem_range] at hmem
  have : i < 512 := hmem
  rw [hzero i this, from_entry_zero]

theorem table_wf_mono (fuel : Nat) :
    ∀ (mem mem2 : Nat → Nat) (top top2 : Nat) (level : MmuLevel) (sect : Nat),
      table_wf mem top fuel level sect = true → top ≤ top2 →
      (∀ a2, sect ≤ a2 → a2 < top → mem2 a2 = mem a2) →
      table_wf mem2 top2 fuel level sect = true := by
  induction fuel with
  | zero =>
    intro mem mem2 top top2 level sect h htop hframe
    rw [table_wf]
  | succ fuel ih =>
    intro mem mem2 top top2 level sect h htop hframe
    have hb := table_wf_bounds mem top fuel level sect h
    rw [table_wf] at h ⊢
    simp only [Bool.and_eq_true, List.all_eq_true, decide_eq_true_eq] at h ⊢
    refine ⟨⟨⟨hb.1, hb.2.1⟩, by omega⟩, ?_⟩
    intro i hmem
    have hi : i < 512 := by
      rw [List.mem_range] at hmem
      exact hmem
    have hread : mem2 (sect + 8 * i) = mem (sect + 8 * i) := by
      refine hframe _ (by omega) ?_
      have : sect + MmuGranule.SIZE ≤ top := hb.2.2
      simp only [MmuGranule.SIZE] at this
      omega
    rw [hread]
    have h2 := h.2 i hmem
    cases hfe : from_entry (mem (sect + 8 * i)) level with
    | none => rfl
    | some et =>
      cases et with
      | Invalid => rfl
      | Block value => rfl
      | Page value => rfl
      | Table value =>
        rw [hfe] at h2
        simp only [Bool.and_eq_true, decide_eq_true_eq] at h2 ⊢
        refine ⟨h2.1, ?_⟩
        cases hnl : level.next_lvl with
        | none => rfl
        | some nextLevel =>
          rw [hnl] at h2
          refine ih mem mem2 top top2 nextLevel (next_level_table_addr value) h2.2 htop ?_
          intro a2 ha2 ha2top
          have hgt : sect < next_level_table_addr value := h2.1
          refine hframe a2 (by omega) ha2top

theorem alloc_pages_ok_inv (m : StackPageAllocatorMetadata) (num base : Nat)
    (m2 : StackPageAllocatorMetadata) (h : alloc_pages m num = .ok base m2) :
    base = m.top ∧ m2 = ⟨m.start, m.end_, m.top + num * MmuGranule.SIZE⟩
      ∧ m.start ≠ 0 ∧ m.top % MmuGranule.SIZE = 0
      ∧ m.top + num * MmuGranule.SIZE ≤ m.end_ := by
  simp only [alloc_pages] at h
  split at h
  · exact absurd h (by simp)
  · split at h
    · exact absurd h (by simp)
    · split at h
      · exact absurd h (by simp)
      · rename_i h1 h2 h3
        simp only [AllocResult.ok.injEq] at h
        refine ⟨h.1.symm, ?_, h1, by omega, by omega⟩
        rw [← h.2]

set_option maxHeartbeats 1000000

theorem map_page_loop_ok (fuel : Nat) :
    ∀ (rem : Nat) (level : MmuLevel) (st st2 : MachineState) (sect paddr vaddr : Nat)
      (a : AttributeFields),
      level.depth + rem = 4 →
      sect % MmuGranule.SIZE = 0 →
      sect + MmuGranule.SIZE ≤ st.metadata.top →
      st.metadata.top % MmuGranule.SIZE = 0 →
      st.metadata.end_ ≤ 2 ^ 48 →
      table_wf st.mem st.metadata.top rem level sect = true →
      map_page_loop paddr vaddr a fuel st sect level (level_mask level) = some (.ok st2) →
      walk_level st2.mem vaddr rem sect level (level_mask level)
          = some (page_descriptor_value paddr a)
        ∧ st2.metadata.start = st.metadata.start
        ∧ st2.metadata.end_ = st.metadata.end_
        ∧ st.metadata.top ≤ st2.metadata.top
        ∧ st2.metadata.top % MmuGranule.SIZE = 0
        ∧ st2.ttbr = st.ttbr
        ∧ ∀ a2, a2 < sect → st2.mem a2 = st.mem a2 := by
  induction fuel with
  | zero =>
    intro rem level st st2 sect paddr vaddr a hrem hsect hbound htop hend hwf hrun
    rw [map_page_loop, if_neg (level_mask_gt level)] at hrun
    simp at hrun
  | succ fuel ih =>
    intro rem level st st2 sect paddr vaddr a hrem hsect hbound htop hend hwf hrun
    have hrem1 : 1 ≤ rem := by
      cases level <;> simp [MmuLevel.depth] at hrem <;> omega
    obtain ⟨rem1, rfl⟩ : ∃ rem1, rem = rem1 + 1 := ⟨rem - 1, by omega⟩
    rw [map_page_loop, if_neg (level_mask_gt level), level_mask_pow level] at hrun
    simp only [not_true, if_false, Bool.not_true, ite_false, if_neg] at hrun
    cases hfe : from_entry (st.mem (sect + 8 * entry_index vaddr (level_mask level))) level with
    | none =>
      rw [hfe] at hrun
      simp at hrun
    | some et =>
      rw [hfe] at hrun
      cases et with
      | Block value => simp at hrun
      | Page value => simp at hrun
      | Table value =>
        dsimp only at hrun
        cases hnl : level.next_lvl with
        | none =>
          rw [hnl] at hrun
          simp at hrun
        | some nextLevel =>
          rw [hnl] at hrun
          dsimp only at hrun
          have hdn := depth_next level nextLevel hnl
          have hrem2 : nextLevel.depth + rem1 = 4 := by omega
          have hrem1pos : 1 ≤ rem1 := by
            cases nextLevel <;> simp [MmuLevel.depth] at hrem2 <;> omega
          obtain ⟨rem2, rfl⟩ : ∃ rem2, rem1 = rem2 + 1 := ⟨rem1 - 1, by omega⟩
          have hidx : entry_index vaddr (level_mask level) < 512 := entry_index_lt_512 vaddr level
          obtain ⟨hlt, hcwf⟩ := table_wf_entry st.mem st.metadata.top (rem2 + 1) level sect value
            (entry_index vaddr (level_mask level)) hwf hidx hfe
          have hcw := hcwf nextLevel hnl
          have hcb := table_wf_bounds st.mem st.metadata.top rem2 nextLevel
            (next_level_table_addr value) hcw
          rw [level_mask_next level nextLevel hnl] at hrun
          obtain ⟨hwalk, h1, h2, h3, h4, h5, hframe⟩ :=
            ih (rem2 + 1) nextLevel st st2 (next_level_table_addr value) paddr vaddr a
              hrem2 hcb.1 hcb.2.2 htop hend hcw hrun
          have hchild_ge : sect + MmuGranule.SIZE ≤ next_level_table_addr value := by
            have hca := next_level_table_addr_aligned value
            simp only [MmuGranule.SIZE] at *
            omega
          refine ⟨?_, h1, h2, h3, h4, h5, ?_⟩
          · rw [walk_level.eq_def]
            dsimp only
            have hm : st2.mem (sect + 8 * entry_index vaddr (level_mask level))
                = st.mem (sect + 8 * entry_index vaddr (level_mask level)) := by
              refine hframe _ ?_
              simp only [MmuGranule.SIZE] at hchild_ge
              omega
            rw [hm, hfe]
            dsimp only
            rw [hnl]
            dsimp only
            rw [level_mask_next level nextLevel hnl]
            exact hwalk
          · intro a2 ha2
            exact hframe a2 (by omega)
      | Invalid =>
        dsimp only at hrun
        by_cases hl3 : level = MmuLevel.Level3
        · subst hl3
          rw [if_pos rfl] at hrun
          rw [map_page_loop.eq_def] at hrun
          dsimp only at hrun
          rw [if_pos level_mask_l3_exit] at hrun
          simp only [Option.some.injEq, MapResult.ok.injEq] at hrun
          subst hrun
          have hr1 : rem1 = 0 := by
            simp [MmuLevel.depth] at hrem
            omega
          subst hr1
          refine ⟨?_, rfl, rfl, Nat.le_refl _, htop, rfl, ?_⟩
          · rw [walk_level.eq_def]
            dsimp only
            simp only [writeMem, if_pos rfl, from_entry_page_descriptor, if_true]
          · intro a2 ha2
            simp only [writeMem]
            rw [if_neg (by omega)]
        · rw [if_neg hl3] at hrun
          cases halloc : alloc_pages st.metadata 1 with
          | err m msg =>
            rw [halloc] at hrun
            simp at hrun
          | panicked msg =>
            rw [halloc] at hrun
            simp at hrun
          | ok base m2 =>
            rw [halloc] at hrun
            dsimp only at hrun
            obtain ⟨hbase, hm2, hs0, htal, hsp⟩ := alloc_pages_ok_inv st.metadata 1 base m2 halloc
            subst hbase
            subst hm2
            have hsb := table_wf_bounds st.mem st.metadata.top rem1 level sect hwf
            obtain ⟨nextLevel, hnl⟩ : ∃ nl, level.next_lvl = some nl := by
              cases level
              · exact ⟨_, rfl⟩
              · exact ⟨_, rfl⟩
              · exact ⟨_, rfl⟩
              · exact absurd rfl hl3
            have hdn := depth_next level nextLevel hnl
            have hnld : nextLevel.depth ≤ 3 := by cases nextLevel <;> decide
            have hrem1pos : 1 ≤ rem1 := by omega
            obtain ⟨rem2, rfl⟩ : ∃ rem2, rem1 = rem2 + 1 := ⟨rem1 - 1, by omega⟩
            have hidx : entry_index vaddr (level_mask level) < 512 := entry_index_lt_512 vaddr level
            have htop48 : st.metadata.top < 2 ^ 48 := by
              simp only [MmuGranule.SIZE] at hsp
              omega
            have hdec : next_level_table_addr (from_next_lvl_table_addr st.metadata.top)
                = st.metadata.top := next_level_table_addr_of_table_desc _ htop htop48
            have hwf3 : table_wf
                (writeMem (zeroFill st.mem st.metadata.top)
                  (sect + 8 * entry_index vaddr (level_mask level))
                  (from_next_lvl_table_addr st.metadata.top))
                (st.metadata.top + 1 * MmuGranule.SIZE) (rem2 + 1 + 1) level sect = true := by
              rw [table_wf]
              simp only [Bool.and_eq_true, List.all_eq_true, decide_eq_true_eq]
              refine ⟨⟨⟨hsect, hsb.2.1⟩, by simp only [MmuGranule.SIZE] at *; omega⟩, ?_⟩
              intro i himem
              have hi : i < 512 := by
                rw [List.mem_range] at himem
                exact himem
              by_cases hieq : i = entry_index vaddr (level_mask level)
              · rw [show entry_index vaddr (level_mask level) = i from hieq.symm]
                have hhit : writeMem (zeroFill st.mem st.metadata.top) (sect + 8 * i)
                    (from_next_lvl_table_addr st.metadata.top) (sect + 8 * i)
                    = from_next_lvl_table_addr st.metadata.top := by
                  simp [writeMem]
                rw [hhit, from_entry_table_descriptor, if_neg hl3]
                dsimp only
                simp only [Bool.and_eq_true, decide_eq_true_eq]
                constructor
                · rw [hdec]
                  simp only [MmuGranule.SIZE] at hbound
                  omega
                · rw [hnl]
                  dsimp only
                  rw [hdec]
                  refine table_wf_zeroed _ _ rem2 nextLevel st.metadata.top htal ?_ ?_ ?_
                  · have := hsb.2.1
                    simp only [MmuGranule.SIZE] at hbound
                    omega
                  · simp only [MmuGranule.SIZE]
                    omega
                  · intro j hj
                    simp only [writeMem, zeroFill, MmuGranule.SIZE] at *
                    rw [if_neg (by omega), if_pos (by omega)]
              · have hread : writeMem (zeroFill st.mem st.metadata.top)
                    (sect + 8 * entry_index vaddr (level_mask level))
                    (from_next_lvl_table_addr st.metadata.top) (sect + 8 * i)
                    = st.mem (sect + 8 * i) := by
                  simp only [writeMem, zeroFill, MmuGranule.SIZE] at *
                  rw [if_neg (by omega), if_neg (by omega)]
                rw [hread]
                rw [table_wf] at hwf
                simp only [Bool.and_eq_true, List.all_eq_true, decide_eq_true_eq] at hwf
                have harm := hwf.2 i himem
                cases hfe2 : from_entry (st.mem (sect + 8 * i)) level with
                | none => rfl
                | some et2 =>
                  cases et2 with
                  | Invalid => rfl
                  | Block v2 => rfl
                  | Page v2 => rfl
                  | Table v2 =>
                    rw [hfe2] at harm
                    simp only [Bool.and_eq_true, decide_eq_true_eq] at harm ⊢
                    have hc2a := next_level_table_addr_aligned v2
                    refine ⟨harm.1, ?_⟩
                    have harm2 := harm.2
                    rw [hnl] at harm2 ⊢
                    dsimp only at harm2 ⊢
                    refine table_wf_mono (rem2 + 1) st.mem _ st.metadata.top _ nextLevel
                      (next_level_table_addr v2) harm2 (by omega) ?_
                    intro a2 ha2c ha2t
                    have hlt2 : sect < next_level_table_addr v2 := harm.1
                    simp only [writeMem, zeroFill]
                    simp only [MmuGranule.SIZE] at hsect hbound
                    rw [if_neg (by omega), if_neg (by omega)]
            obtain ⟨hwalk, h1, h2, h3, h4, h5, hframe⟩ :=
              ih (rem2 + 1 + 1) level
                ⟨⟨st.metadata.start, st.metadata.end_, st.metadata.top + 1 * MmuGranule.SIZE⟩,
                  writeMem (zeroFill st.mem st.metadata.top)
                    (sect + 8 * entry_index vaddr (level_mask level))
                    (from_next_lvl_table_addr st.metadata.top), st.ttbr⟩
                st2 sect paddr vaddr a hrem hsect
                (by simp only [MmuGranule.SIZE] at *; omega)
                (by simp only [MmuGranule.SIZE] at *; omega)
                hend hwf3 hrun
            refine ⟨hwalk, h1, h2, ?_, h4, h5, ?_⟩
            · exact le_trans (Nat.le_add_right _ _) h3
            · intro a2 ha2
              rw [hframe a2 ha2]
              simp only [writeMem, zeroFill, MmuGranule.SIZE] at *
              rw [if_neg (by omega), if_neg (by omega)]

theorem init_mask_eq : level_mask .Level0 = INIT_MASK := rfl

theorem map_page_ok_walk (st st2 : MachineState) (paddr vaddr : Nat) (a : AttributeFields)
    (hwf : state_wf st = true) (hok : map_page st paddr vaddr a = .ok st2) :
    walk st2 vaddr = some (page_descriptor_value paddr a) ∧ st2.ttbr ≠ 0 := by
  simp only [state_wf, Bool.and_eq_true, Bool.or_eq_true, decide_eq_true_eq] at hwf
  obtain ⟨⟨⟨⟨hs0, hst⟩, htal⟩, hend⟩, hroot⟩ := hwf
  rw [map_page] at hok
  cases hro : root_or_init st with
  | error msg =>
    rw [hro] at hok
    simp at hok
  | ok pair =>
    obtain ⟨st1, root⟩ := pair
    rw [hro] at hok
    dsimp only at hok
    cases hloop : map_page_loop paddr vaddr a 8 st1 root .Level0 INIT_MASK with
    | none =>
      rw [hloop] at hok
      simp at hok
    | some r =>
      rw [hloop] at hok
      dsimp only at hok
      subst hok
      rw [← init_mask_eq] at hloop
      -- establish the preconditions depending on how the root was obtained
      rw [root_or_init] at hro
      by_cases httbr : st.ttbr ≠ 0
      · rw [if_pos httbr] at hro
        simp only [Except.ok.injEq, Prod.mk.injEq] at hro
        obtain ⟨hst1, hrootv⟩ := hro
        subst hst1
        subst hrootv
        have htw : table_wf st.mem st.metadata.top 4 .Level0 st.ttbr = true := by
          rcases hroot with h | h
          · exact absurd h httbr
          · exact h
        have hb := table_wf_bounds st.mem st.metadata.top 3 .Level0 st.ttbr htw
        obtain ⟨hwalk, -, -, -, -, httbr2, -⟩ :=
          map_page_loop_ok 8 4 .Level0 st st2 st.ttbr paddr vaddr a (by decide)
            hb.1 hb.2.2 htal hend htw hloop
        refine ⟨?_, ?_⟩
        · rw [walk, if_neg (by rw [httbr2]; exact httbr), httbr2, ← init_mask_eq]
          exact hwalk
        · rw [httbr2]
          exact httbr
      · rw [if_neg httbr] at hro
        simp only [ne_eq, not_not] at httbr
        cases halloc : alloc_pages st.metadata 1 with
        | err m msg =>
          rw [halloc] at hro
          simp at hro
        | panicked msg =>
          rw [halloc] at hro
          simp at hro
        | ok base m2 =>
          rw [halloc] at hro
          simp only [Except.ok.injEq, Prod.mk.injEq] at hro
          obtain ⟨hst1, hrootv⟩ := hro
          subst hrootv
          obtain ⟨hbase, hm2, hs0b, htalb, hsp⟩ := alloc_pages_ok_inv st.metadata 1 base m2 halloc
          subst hbase
          subst hm2
          subst hst1
          have htw : table_wf (zeroFill st.mem st.metadata.top)
              (st.metadata.top + 1 * MmuGranule.SIZE) 4 .Level0 st.metadata.top = true := by
            refine table_wf_zeroed _ _ 3 .Level0 st.metadata.top htal (by omega) ?_ ?_
            · simp only [MmuGranule.SIZE]
              omega
            · intro j hj
              simp only [zeroFill, MmuGranule.SIZE]
              rw [if_pos (by omega)]
          obtain ⟨hwalk, -, -, -, -, httbr2, -⟩ :=
            map_page_loop_ok 8 4 .Level0
              ⟨⟨st.metadata.start, st.metadata.end_, st.metadata.top + 1 * MmuGranule.SIZE⟩,
                zeroFill st.mem st.metadata.top, st.metadata.top⟩
              st2 st.metadata.top paddr vaddr a (by decide) htal
              (by simp only [MmuGranule.SIZE] at htal ⊢; omega)
              (by simp only [MmuGranule.SIZE] at htal ⊢; omega)
              hend htw hloop
          have htpos : st.metadata.top ≠ 0 := by omega
          refine ⟨?_, ?_⟩
          · rw [walk, if_neg (by rw [httbr2]; exact htpos), httbr2, ← init_mask_eq]
            exact hwalk
          · rw [httbr2]
            exact htpos

/-- C1: from any well-formed state, if `map_page physical virtual attributes`
returns `Ok` for a granule-aligned pair of addresses (with the physical address in
the 48-bit output range), then walking the resulting translation tables at that
virtual address reaches a leaf page descriptor that resolves to exactly that
physical address, with the valid bit and access flag set, the output-address
field equal to `physical >> granule shift`, and access permission, attribute
index, shareability and privileged execute-never encoding the requested
attributes. -/
theorem map_page_roundtrip (st st2 : MachineState) (paddr vaddr : Nat) (a : AttributeFields)
    (hwf : state_wf st = true)
    (hp : paddr % MmuGranule.SIZE = 0) (hp48 : paddr < 2 ^ 48)
    (hok : map_page st paddr vaddr a = .ok st2) :
    ∃ d, walk st2 vaddr = some d
      ∧ output_addr d = paddr
      ∧ getField d 0 1 = 1
      ∧ getField d 10 1 = 1
      ∧ getField d 12 36 = paddr >>> MmuGranule.SHIFT
      ∧ getField d 6 2 = ap_bits a.acc_perms
      ∧ getField d 2 3 = attr_index a.mem_attributes
      ∧ getField d 8 2 = sh_bits a.mem_attributes
      ∧ getField d 53 1 = bit_of a.execute_never := by
  obtain ⟨hwalk, -⟩ := map_page_ok_walk st st2 paddr vaddr a hwf hok
  obtain ⟨f1, f2, f3, f4, f5, f6, f7, f8⟩ := page_descriptor_fields paddr a hp hp48
  exact ⟨page_descriptor_value paddr a, hwalk, f4, f1, f2, f3, f5, f6, f7, f8⟩

theorem walk_err_loop (rem : Nat) :
    ∀ (level : MmuLevel) (st : MachineState) (sect paddr vaddr : Nat) (a : AttributeFields)
      (d f : Nat),
      level.depth + rem = 4 → rem ≤ f →
      walk_level st.mem vaddr rem sect level (level_mask level) = some d →
      map_page_loop paddr vaddr a f st sect level (level_mask level)
        = some (.err st "Address already mapped in a page") := by
  induction rem with
  | zero =>
    intro level st sect paddr vaddr a d f hrem hf hwalk
    rw [walk_level] at hwalk
    simp at hwalk
  | succ rem ih =>
    intro level st sect paddr vaddr a d f hrem hf hwalk
    obtain ⟨f1, rfl⟩ : ∃ f1, f = f1 + 1 := ⟨f - 1, by omega⟩
    rw [walk_level.eq_def] at hwalk
    dsimp only at hwalk
    rw [map_page_loop, if_neg (level_mask_gt level), level_mask_pow level]
    simp only [not_true, if_false, Bool.not_true, ite_false, if_neg]
    cases hfe : from_entry (st.mem (sect + 8 * entry_index vaddr (level_mask level))) level with
    | none =>
      rw [hfe] at hwalk
      simp at hwalk
    | some et =>
      cases et with
      | Invalid =>
        rw [hfe] at hwalk
        simp at hwalk
      | Block value =>
        rw [hfe] at hwalk
        simp at hwalk
      | Page value => rfl
      | Table value =>
        rw [hfe] at hwalk
        dsimp only at hwalk
        cases hnl : level.next_lvl with
        | none =>
          rw [hnl] at hwalk
          simp at hwalk
        | some nextLevel =>
          rw [hnl] at hwalk
          dsimp only at hwalk
          dsimp only
          have hdn := depth_next level nextLevel hnl
          rw [level_mask_next level nextLevel hnl] at hwalk ⊢
          exact ih nextLevel st (next_level_table_addr value) paddr vaddr a d f1
            (by omega) (by omega) hwalk

/-- C2: if a first `map_page` call for a virtual address succeeds from a
well-formed state, a second `map_page` call for the same virtual address (with
any physical address and attributes) returns the mapping-conflict error
`"Address already mapped in a page"` and leaves the entire machine state — the
descriptor of the first mapping, all other table entries, and the allocator — exactly
unchanged. -/
theorem map_page_conflict (st st2 : MachineState) (p1 p2 vaddr : Nat) (a1 a2 : AttributeFields)
    (hwf : state_wf st = true)
    (h1 : map_page st p1 vaddr a1 = .ok st2) :
    map_page st2 p2 vaddr a2 = .err st2 "Address already mapped in a page" := by
  obtain ⟨hwalk, httbr⟩ := map_page_ok_walk st st2 p1 vaddr a1 hwf h1
  rw [walk, if_neg httbr] at hwalk
  rw [← init_mask_eq] at hwalk
  have herr := walk_err_loop 4 .Level0 st2 st2.ttbr p2 vaddr a2
    (page_descriptor_value p1 a1) 8 (by decide) (by decide) hwalk
  rw [map_page, root_or_init, if_pos httbr]
  dsimp only
  rw [← init_mask_eq, herr]

theorem map_page_loop_mono (paddr vaddr : Nat) (a : AttributeFields) (n : Nat) :
    ∀ (m : Nat) (st : MachineState) (sect : Nat) (level : MmuLevel) (mask : Nat) (r : MapResult),
      n ≤ m →
      map_page_loop paddr vaddr a n st sect level mask = some r →
      map_page_loop paddr vaddr a m st sect level mask = some r := by
  induction n with
  | zero =>
    intro m st sect level mask r hle h
    rw [map_page_loop.eq_def] at h
    dsimp only at h
    by_cases hm : mask ≤ MmuGranule.SIZE
    · rw [if_pos hm] at h
      rw [map_page_loop.eq_def]
      dsimp only
      rw [if_pos hm]
      exact h
    · rw [if_neg hm] at h
      simp at h
  | succ n ih =>
    intro m st sect level mask r hle h
    by_cases hm : mask ≤ MmuGranule.SIZE
    · rw [map_page_loop.eq_def] at h
      dsimp only at h
      rw [if_pos hm] at h
      rw [map_page_loop.eq_def]
      dsimp only
      rw [if_pos hm]
      exact h
    · obtain ⟨m1, rfl⟩ : ∃ m1, m = m1 + 1 := ⟨m - 1, by omega⟩
      rw [map_page_loop.eq_def] at h
      dsimp only at h
      rw [if_neg hm] at h
      rw [map_page_loop.eq_def]
      dsimp only
      rw [if_neg hm]
      by_cases hpw : is_power_of_two (mask / (ENTRY_PER_TABLE - 1))
      · rw [if_neg (fun hcon => hcon hpw)] at h ⊢
        cases hfe : from_entry (st.mem (sect + 8 * entry_index vaddr mask)) level with
        | none =>
          rw [hfe] at h
          exact h
        | some et =>
          cases et with
          | Block value =>
            rw [hfe] at h
            exact h
          | Page value =>
            rw [hfe] at h
            exact h
          | Table value =>
            rw [hfe] at h
            dsimp only at h ⊢
            cases hnl : level.next_lvl with
            | none =>
              rw [hnl] at h
              exact h
            | some nextLevel =>
              rw [hnl] at h
              dsimp only at h ⊢
              exact ih m1 st (next_level_table_addr value) nextLevel
                (mask >>> (MmuGranule.SHIFT - 3)) r (by omega) h
          | Invalid =>
            rw [hfe] at h
            dsimp only at h ⊢
            by_cases hl3 : level = MmuLevel.Level3
            · rw [if_pos hl3] at h ⊢
              exact ih m1 _ sect level (mask >>> (MmuGranule.SHIFT - 3)) r (by omega) h
            · rw [if_neg hl3] at h ⊢
              cases halloc : alloc_pages st.metadata 1 with
              | err m2 msg =>
                rw [halloc] at h
                exact h
              | panicked msg =>
                rw [halloc] at h
                exact h
              | ok base m2 =>
                rw [halloc] at h
                dsimp only at h ⊢
                exact ih m1 _ sect level mask r (by omega) h
      · rw [if_pos (fun hcon => hpw hcon)] at h ⊢
        exact h

theorem map_page_loop_total (paddr vaddr : Nat) (a : AttributeFields) (rem : Nat) :
    ∀ (level : MmuLevel) (st : MachineState) (sect : Nat),
      level.depth + rem = 4 →
      ∃ r, map_page_loop paddr vaddr a (2 * rem - 1) st sect level (level_mask level)
        = some r := by
  induction rem with
  | zero =>
    intro level st sect hrem
    exact absurd hrem (by cases level <;> simp [MmuLevel.depth])
  | succ rem ih =>
    intro level st sect hrem
    have h2r : 2 * (rem + 1) - 1 = 2 * rem + 1 := by omega
    rw [h2r]
    rw [map_page_loop.eq_def]
    dsimp only
    rw [if_neg (level_mask_gt level), level_mask_pow level]
    simp only [not_true, if_false, Bool.not_true, ite_false, if_neg]
    cases hfe : from_entry (st.mem (sect + 8 * entry_index vaddr (level_mask level))) level with
    | none => exact ⟨_, rfl⟩
    | some et =>
      cases et with
      | Block value => exact ⟨_, rfl⟩
      | Page value => exact ⟨_, rfl⟩
      | Table value =>
        dsimp only
        cases hnl : level.next_lvl with
        | none => exact ⟨_, rfl⟩
        | some nextLevel =>
          dsimp only
          have hdn := depth_next level nextLevel hnl
          rw [level_mask_next level nextLevel hnl]
          obtain ⟨r, hr⟩ := ih nextLevel st (next_level_table_addr value) (by omega)
          exact ⟨r, map_page_loop_mono paddr vaddr a (2 * rem - 1) (2 * rem) st
            (next_level_table_addr value) nextLevel (level_mask nextLevel) r (by omega) hr⟩
      | Invalid =>
        dsimp only
        by_cases hl3 : level = MmuLevel.Level3
        · rw [if_pos hl3]
          subst hl3
          refine ⟨.ok { st with
            mem := writeMem st.mem
              (sect + 8 * entry_index vaddr (level_mask MmuLevel.Level3))
              (page_descriptor_value paddr a) }, ?_⟩
          rw [map_page_loop.eq_def]
          dsimp only
          rw [if_pos level_mask_l3_exit]
        · rw [if_neg hl3]
          cases halloc : alloc_pages st.metadata 1 with
          | err m2 msg => exact ⟨_, rfl⟩
          | panicked msg => exact ⟨_, rfl⟩
          | ok base m2 =>
            dsimp only
            obtain ⟨nextLevel, hnl⟩ : ∃ nl, level.next_lvl = some nl := by
              cases level
              · exact ⟨_, rfl⟩
              · exact ⟨_, rfl⟩
              · exact ⟨_, rfl⟩
              · exact absurd rfl hl3
            have hdn := depth_next level nextLevel hnl
            have hnld : nextLevel.depth ≤ 3 := by cases nextLevel <;> decide
            have hrpos : 1 ≤ rem := by omega
            obtain ⟨rem1, rfl⟩ : ∃ rem1, rem = rem1 + 1 := ⟨rem - 1, by omega⟩
            have h2r2 : 2 * (rem1 + 1) = 2 * rem1 + 1 + 1 := by omega
            rw [h2r2, map_page_loop.eq_def]
            dsimp only
            rw [if_neg (level_mask_gt level), level_mask_pow level]
            simp only [not_true, if_false, Bool.not_true, ite_false, if_neg]
            have hhit : writeMem (zeroFill st.mem base)
                (sect + 8 * entry_index vaddr (level_mask level))
                (from_next_lvl_table_addr base)
                (sect + 8 * entry_index vaddr (level_mask level))
                = from_next_lvl_table_addr base := by
              simp [writeMem]
            rw [hhit, from_entry_table_descriptor, if_neg hl3]
            dsimp only
            rw [hnl]
            dsimp only
            rw [level_mask_next level nextLevel hnl]
            obtain ⟨r, hr⟩ := ih nextLevel
              { metadata := m2,
                mem := writeMem (zeroFill st.mem base)
                  (sect + 8 * entry_index vaddr (level_mask level))
                  (from_next_lvl_table_addr base),
                ttbr := st.ttbr }
              (next_level_table_addr (from_next_lvl_table_addr base)) (by omega)
            exact ⟨r, map_page_loop_mono paddr vaddr a (2 * (rem1 + 1) - 1) (2 * rem1 + 1) _ _
              nextLevel (level_mask nextLevel) r (by omega) hr⟩

/-- C8: the per-page walk loop of `map_page` terminates within the claimed bound:
starting from level 0 with the widest index mask, at most two iterations per
level across the four levels (8 iterations) always suffice — with fuel 8 the
loop produces a result (never the fuel-exhaustion marker), and any larger fuel
produces exactly the same result, the mask narrowing by the table index width
`SHIFT - 3 = 9` on every iteration except the at-most-one table-installing retry
per level. -/
theorem map_page_loop_fuel_bound (st : MachineState) (sect paddr vaddr : Nat)
    (a : AttributeFields) (f : Nat) (hf : 8 ≤ f) :
    (map_page_loop paddr vaddr a 8 st sect .Level0 INIT_MASK).isSome = true
      ∧ map_page_loop paddr vaddr a f st sect .Level0 INIT_MASK
          = map_page_loop paddr vaddr a 8 st sect .Level0 INIT_MASK := by
  obtain ⟨r, hr⟩ := map_page_loop_total paddr vaddr a 4 .Level0 st sect (by decide)
  rw [← init_mask_eq]
  have h8 := map_page_loop_mono paddr vaddr a 7 8 st sect .Level0 (level_mask .Level0) r
    (by omega) hr
  have hff := map_page_loop_mono paddr vaddr a 7 f st sect .Level0 (level_mask .Level0) r
    (by omega) hr
  rw [h8, hff]
  exact ⟨rfl, rfl⟩

theorem map_page_loop_fuel_bound_witness :
    ((8 : Nat) ≤ 9)
      ∧ ((map_page_loop 4096 8192 ⟨.CacheableDRAM, .ReadWrite, false⟩ 8
            ⟨⟨0x40000000, 0x40010000, 0x40000000⟩, fun _ => 0, 4096⟩ 4096 .Level0
            INIT_MASK).isSome = true
        ∧ map_page_loop 4096 8192 ⟨.CacheableDRAM, .ReadWrite, false⟩ 9
              ⟨⟨0x40000000, 0x40010000, 0x40000000⟩, fun _ => 0, 4096⟩ 4096 .Level0 INIT_MASK
            = map_page_loop 4096 8192 ⟨.CacheableDRAM, .ReadWrite, false⟩ 8
                ⟨⟨0x40000000, 0x40010000, 0x40000000⟩, fun _ => 0, 4096⟩ 4096 .Level0
                INIT_MASK) :=
  ⟨by decide,
    map_page_loop_fuel_bound ⟨⟨0x40000000, 0x40010000, 0x40000000⟩, fun _ => 0, 4096⟩ 4096
      4096 8192 ⟨.CacheableDRAM, .ReadWrite, false⟩ 9 (by decide)⟩

theorem map_page_roundtrip_witness :
    (state_wf ⟨⟨0x40000000, 0x40010000, 0x40000000⟩, fun _ => 0, 0⟩ = true
      ∧ (0x1000 : Nat) % MmuGranule.SIZE = 0
      ∧ (0x1000 : Nat) < 2 ^ 48
      ∧ map_page ⟨⟨0x40000000, 0x40010000, 0x40000000⟩, fun _ => 0, 0⟩ 0x1000 0xFFF2000
          ⟨.CacheableDRAM, .ReadWrite, false⟩
        = .ok (MapResult.get_state
            (map_page ⟨⟨0x40000000, 0x40010000, 0x40000000⟩, fun _ => 0, 0⟩ 0x1000 0xFFF2000
              ⟨.CacheableDRAM, .ReadWrite, false⟩)))
      ∧ (∃ d,
          walk (MapResult.get_state
              (map_page ⟨⟨0x40000000, 0x40010000, 0x40000000⟩, fun _ => 0, 0⟩ 0x1000 0xFFF2000
                ⟨.CacheableDRAM, .ReadWrite, false⟩)) 0xFFF2000 = some d
            ∧ output_addr d = 0x1000
            ∧ getField d 0 1 = 1
            ∧ getField d 10 1 = 1
            ∧ getField d 12 36 = 0x1000 >>> MmuGranule.SHIFT
            ∧ getField d 6 2 = ap_bits AccessPermissions.ReadWrite
            ∧ getField d 2 3 = attr_index MemAttributes.CacheableDRAM
            ∧ getField d 8 2 = sh_bits MemAttributes.CacheableDRAM
            ∧ getField d 53 1 = bit_of false) :=
  ⟨⟨by decide, by decide, by decide, rfl⟩,
    map_page_roundtrip ⟨⟨0x40000000, 0x40010000, 0x40000000⟩, fun _ => 0, 0⟩
      (MapResult.get_state
        (map_page ⟨⟨0x40000000, 0x40010000, 0x40000000⟩, fun _ => 0, 0⟩ 0x1000 0xFFF2000
          ⟨.CacheableDRAM, .ReadWrite, false⟩))
      0x1000 0xFFF2000 ⟨.CacheableDRAM, .ReadWrite, false⟩ (by decide) (by decide) (by decide)
      rfl⟩

theorem map_page_conflict_witness :
    (state_wf ⟨⟨0x40000000, 0x40010000, 0x40000000⟩, fun _ => 0, 0⟩ = true
      ∧ map_page ⟨⟨0x40000000, 0x40010000, 0x40000000⟩, fun _ => 0, 0⟩ 0x1000 0xFFF2000
          ⟨.CacheableDRAM, .ReadWrite, false⟩
        = .ok (MapResult.get_state
            (map_page ⟨⟨0x40000000, 0x40010000, 0x40000000⟩, fun _ => 0, 0⟩ 0x1000 0xFFF2000
              ⟨.CacheableDRAM, .ReadWrite, false⟩)))
      ∧ map_page (MapResult.get_state
            (map_page ⟨⟨0x40000000, 0x40010000, 0x40000000⟩, fun _ => 0, 0⟩ 0x1000 0xFFF2000
              ⟨.CacheableDRAM, .ReadWrite, false⟩)) 0x3000 0xFFF2000
          ⟨.Device, .ReadOnly, true⟩
        = .err (MapResult.get_state
              (map_page ⟨⟨0x40000000, 0x40010000, 0x40000000⟩, fun _ => 0, 0⟩ 0x1000 0xFFF2000
                ⟨.CacheableDRAM, .ReadWrite, false⟩))
            "Address already mapped in a page" :=
  ⟨⟨by decide, rfl⟩,
    map_page_conflict ⟨⟨0x40000000, 0x40010000, 0x40000000⟩, fun _ => 0, 0⟩
      (MapResult.get_state
        (map_page ⟨⟨0x40000000, 0x40010000, 0x40000000⟩, fun _ => 0, 0⟩ 0x1000 0xFFF2000
          ⟨.CacheableDRAM, .ReadWrite, false⟩))
      0x1000 0x3000 0xFFF2000 ⟨.CacheableDRAM, .ReadWrite, false⟩ ⟨.Device, .ReadOnly, true⟩
      (by decide) rfl⟩
